import Mathlib

/- Shallow embedding of the resilient bulk-loading and cross-backend benchmarking
core of the mongodb-postgres-comparison repository:
  * src/scripts/mongodb-script.py   (MongoDBImporter.connect, bulk_insert_documents)
  * src/scripts/postgres-script.py  (PostgresImporter.connect)
  * src/scripts/comparisons.py      (DatabaseBenchmark.execute_query_with_stats,
                                     DatabaseBenchmark._generate_findings)
Timing values and query means are idealised as rationals; the external backend
(pymongo / psycopg2) is modelled as a function from batch or attempt index to an
explicit outcome value. -/

/-- Outcome of submitting one batch through `collection.bulk_write(batch, ordered=False)`
as handled in src/scripts/mongodb-script.py lines 144-149:
`success c` means the call returned normally reporting `inserted_count = c`;
`bulkWriteError n` means the call raised `BulkWriteError` whose details carried
`nInserted = n` (a batch-level partial failure, recovered locally);
`fatal` means the call raised any other exception (a batch-level total failure),
which the surrounding handler at lines 162-164 logs and re-raises. -/
inductive BatchOutcome : Type where
  | success (inserted_count : Nat)
  | bulkWriteError (nInserted : Nat)
  | fatal
deriving DecidableEq

/-- One step of the slicing loop `for i in range(0, len(operations), batch_size)`
with `batch = operations[i:i + batch_size]` (mongodb-script.py lines 142-143),
written with explicit fuel so the recursion is structural; `chunkList` supplies
adequate fuel. -/
def chunkGo {α : Type} (batch_size : Nat) : Nat → List α → List (List α)
  | 0, _ => []
  | _ + 1, [] => []
  | fuel + 1, l => l.take batch_size :: chunkGo batch_size fuel (l.drop batch_size)

/-- The batch partition produced by the slicing loop of `bulk_insert_documents`:
consecutive slices of at most `batch_size` elements, in source order. -/
def chunkList {α : Type} (batch_size : Nat) (l : List α) : List (List α) :=
  chunkGo batch_size l.length l

/-- The filtered operation list and its partition into batches
(mongodb-script.py lines 128-143): `None` documents are dropped by
`valid_documents = [doc for doc in documents if doc is not None]` before batching. -/
def loadBatches {α : Type} (documents : List (Option α)) (batch_size : Nat) :
    List (List α) :=
  chunkList batch_size (documents.filterMap id)

/-- The accumulation loop of `bulk_insert_documents` (mongodb-script.py lines
138-151) over the already-built batches: on `success c` add `c` to
`total_inserted`; on `bulkWriteError n` add `len(batch) - n` to `failed_inserts`
(an `Int`, as Python integer subtraction) and continue; on `fatal` the exception
escapes the loop, modelled as `none`. -/
def bulkLoop {α : Type} (backend : Nat → BatchOutcome) :
    List (List α) → Nat → Nat → Int → Option (Nat × Int)
  | [], _, ins, fail => some (ins, fail)
  | b :: rest, idx, ins, fail =>
    match backend idx with
    | .success c => bulkLoop backend rest (idx + 1) (ins + c) fail
    | .bulkWriteError n =>
        bulkLoop backend rest (idx + 1) ins (fail + ((b.length : Int) - (n : Int)))
    | .fatal => none

/-- `MongoDBImporter.bulk_insert_documents(documents, batch_size)`
(mongodb-script.py lines 124-164): filter out `None` documents, partition into
batches, run the submission loop starting from counters `(0, 0)`, and return
`(total_inserted, failed_inserts)`; `none` models a fatal batch error being
re-raised to the caller. -/
def bulk_insert_documents {α : Type} (backend : Nat → BatchOutcome)
    (documents : List (Option α)) (batch_size : Nat) : Option (Nat × Int) :=
  bulkLoop backend (loadBatches documents batch_size) 0 0 0

/-- Sum of the backend-reported `inserted_count` over the batches that complete
without raising, starting at batch index `idx`. -/
def insSum {α : Type} (backend : Nat → BatchOutcome) : Nat → List (List α) → Nat
  | _, [] => 0
  | idx, _ :: rest =>
    (match backend idx with
     | .success c => c
     | _ => 0) + insSum backend (idx + 1) rest

/-- Sum of the per-batch contributions `len(batch) - nInserted` over the batches
that raise `BulkWriteError`, starting at batch index `idx`. -/
def failSum {α : Type} (backend : Nat → BatchOutcome) : Nat → List (List α) → Int
  | _, [] => 0
  | idx, b :: rest =>
    (match backend idx with
     | .bulkWriteError n => (b.length : Int) - (n : Int)
     | _ => 0) + failSum backend (idx + 1) rest

/-- Sum of the backend-reported `nInserted` over the batches that raise
`BulkWriteError`, starting at batch index `idx`. -/
def nInsSum {α : Type} (backend : Nat → BatchOutcome) : Nat → List (List α) → Int
  | _, [] => 0
  | idx, _ :: rest =>
    (match backend idx with
     | .bulkWriteError n => (n : Int)
     | _ => 0) + nInsSum backend (idx + 1) rest

/-- Whether a batch outcome is a batch-level total failure. -/
def isFatal : BatchOutcome → Bool
  | .fatal => true
  | _ => false

/-- A legal backend report for a batch of the given size: a normally completed
`bulk_write` never reports more insertions than the batch holds. -/
def reportBounded : BatchOutcome → Nat → Bool
  | .success c, len => decide (c ≤ len)
  | _, _ => true

/-- Full accounting of a batch of the given size: a normal completion reports the
whole batch inserted, and a partial failure reports `nInserted = 0`, so that every
record of the batch lands in exactly one of the two counters. -/
def fullAccount : BatchOutcome → Nat → Bool
  | .success c, len => decide (c = len)
  | .bulkWriteError n, _ => decide (n = 0)
  | .fatal, _ => true

/-- A normally completed `bulk_write` on a batch of the given size reports the
whole batch inserted (pymongo raises `BulkWriteError` whenever any operation of
the batch fails). -/
def fullSuccess : BatchOutcome → Nat → Bool
  | .success c, len => decide (c = len)
  | _, _ => true

/-- Outcome of a `connect()` call: `connected` models `return True` (MongoDB) or
`return` (PostgreSQL) after a successful attempt; `raised e` models the bare
`raise` re-raising the underlying exception `e` of the final failed attempt;
`exhausted` models falling off the end of the `for` loop, which cannot happen
for a positive retry bound. -/
inductive ConnectOutcome (ε : Type) : Type where
  | connected
  | raised (e : ε)
  | exhausted
deriving DecidableEq

/-- The retry loop `for attempt in range(max_retries)` shared by
`MongoDBImporter.connect` (mongodb-script.py lines 31-46) and
`PostgresImporter.connect` (postgres-script.py lines 31-45), with the number of
remaining attempts as the structural recursion measure, so `remaining = 1` holds
exactly on the final attempt (`attempt == max_retries - 1`).
`tryConn a = none` means attempt `a` establishes the connection and the function
returns; `tryConn a = some e` means attempt `a` raises exception `e`.  On a
failed non-final attempt the code sleeps `2 ** attempt` seconds (base delay 1)
and retries; on the final failed attempt it re-raises `e`.  Returns the outcome,
the list of performed back-off sleeps in order, and the number of connection
attempts made. -/
def connectGo {ε : Type} (tryConn : Nat → Option ε) :
    Nat → Nat → ConnectOutcome ε × List Nat × Nat
  | 0, _ => (.exhausted, [], 0)
  | remaining + 1, attempt =>
    match tryConn attempt with
    | none => (.connected, [], 1)
    | some e =>
      if remaining = 0 then (.raised e, [], 1)
      else
        let r := connectGo tryConn remaining (attempt + 1)
        (r.1, 2 ^ attempt :: r.2.1, r.2.2 + 1)

/-- `connect()` with the fixed `max_retries = 3` of both importers. -/
def connect {ε : Type} (tryConn : Nat → Option ε) : ConnectOutcome ε × List Nat × Nat :=
  connectGo tryConn 3 0

/-- The timing loop of `DatabaseBenchmark.execute_query_with_stats`
(comparisons.py lines 59-71).  `clock k` is the value returned by the k-th call
to `time.time()` (counted from 0 across the whole run); iteration `i` reads the
clock at indices `2*i` and `2*i+1` around `query_func()` and records the
difference as one timing sample.  `fails i = some e` means `query_func` raises
`e` on iteration `i`; the exception propagates out of the method, discarding the
local `execution_times` list.  Returns the list of iteration indices on which
`query_func` was invoked, and either the propagated exception or the timing
samples in iteration order. -/
def ewqGo {ε : Type} (clock : Nat → ℚ) (fails : Nat → Option ε) :
    Nat → Nat → List Nat × Except ε (List ℚ)
  | 0, _ => ([], .ok [])
  | remaining + 1, i =>
    match fails i with
    | some e => ([i], .error e)
    | none =>
      let t := clock (2 * i + 1) - clock (2 * i)
      let r := ewqGo clock fails remaining (i + 1)
      (i :: r.1,
       match r.2 with
       | .ok ts => .ok (t :: ts)
       | .error e => .error e)

/-- The sample-collection phase of `execute_query_with_stats` run for
`iterations` iterations starting at iteration 0. -/
def execute_query_times {ε : Type} (clock : Nat → ℚ) (fails : Nat → Option ε)
    (iterations : Nat) : List Nat × Except ε (List ℚ) :=
  ewqGo clock fails iterations 0

/-- Insertion of one element into an ascending list, the auxiliary step of `sortList`. -/
def insertSorted (x : ℚ) : List ℚ → List ℚ
  | [] => [x]
  | y :: t => if x ≤ y then x :: y :: t else y :: insertSorted x t

/-- Ascending reordering of the samples, as produced by Python `sorted(data)`
inside `statistics.median`: a sorted permutation of a list is unique, so
insertion sort returns exactly the list `sorted` returns. -/
def sortList : List ℚ → List ℚ
  | [] => []
  | x :: t => insertSorted x (sortList t)

/-- `statistics.mean(execution_times)` (comparisons.py line 75). -/
def listMean (l : List ℚ) : ℚ := l.sum / (l.length : ℚ)

/-- `statistics.median(execution_times)` (comparisons.py line 76): the middle
element of the ascending reordering for an odd sample count, the average of the
two middle elements for an even count. -/
def listMedian (l : List ℚ) : ℚ :=
  if l.length % 2 = 1 then (sortList l).getD (l.length / 2) 0
  else ((sortList l).getD (l.length / 2 - 1) 0 + (sortList l).getD (l.length / 2) 0) / 2

/-- Python `min(execution_times)` (comparisons.py line 78). -/
def listMin : List ℚ → ℚ
  | [] => 0
  | x :: t => t.foldl min x

/-- Python `max(execution_times)` (comparisons.py line 79). -/
def listMax : List ℚ → ℚ
  | [] => 0
  | x :: t => t.foldl max x

/-- The sample variance underlying `statistics.stdev`:
the sum of squared deviations from the mean divided by `n - 1`. -/
def sampleVariance (l : List ℚ) : ℚ :=
  (l.map (fun x => (x - listMean l) ^ 2)).sum / ((l.length : ℚ) - 1)

/-- Exact rational square root: `ratSqrt (r ^ 2) = r` for every nonnegative
rational `r`.  This is the value of the `math.sqrt` inside `statistics.stdev`
whenever that value is exactly representable; float rounding on non-square
inputs is not modelled. -/
def ratSqrt (q : ℚ) : ℚ := (Nat.sqrt q.num.toNat : ℚ) / (Nat.sqrt q.den : ℚ)

/-- `statistics.stdev(execution_times) if len(execution_times) > 1 else 0`
(comparisons.py line 77). -/
def listStdDev (l : List ℚ) : ℚ :=
  if 1 < l.length then ratSqrt (sampleVariance l) else 0

/-- The `QueryResult` dataclass (comparisons.py lines 22-30). -/
structure QueryResult where
  execution_times : List ℚ
  mean : ℚ
  median : ℚ
  std_dev : ℚ
  min_time : ℚ
  max_time : ℚ
deriving DecidableEq

/-- The statistics-construction step of `execute_query_with_stats`
(comparisons.py lines 73-80), the spec's `StatsAggregator.summarize`: reduce the
collected samples to a `QueryResult`.  `none` models the
`statistics.StatisticsError` raised by `statistics.mean` on an empty sample
sequence, which the spec names `InsufficientDataError`. -/
def summarize (execution_times : List ℚ) : Option QueryResult :=
  if execution_times = [] then none
  else
    some { execution_times := execution_times
           mean := listMean execution_times
           median := listMedian execution_times
           std_dev := listStdDev execution_times
           min_time := listMin execution_times
           max_time := listMax execution_times }

/-- The characters of `name.lower()`, as applied to test names in
`_generate_findings` (comparisons.py lines 425-426). -/
def lowerStr (s : String) : List Char := s.data.map Char.toLower

/-- Python substring membership `pat in s` over character lists. -/
def containsSub (pat : List Char) : List Char → Bool
  | [] => pat.isEmpty
  | c :: t => pat.isPrefixOf (c :: t) || containsSub pat t

/-- One entry appended to the `findings` list by `_generate_findings`
(comparisons.py lines 433-438).  The code interpolates these fields into the
string "In category, faster_db was percent% faster on average (mongo_test vs
pg_test)"; the fields are modelled instead of the formatted text. -/
structure Finding where
  category : String
  faster_db : String
  percent : ℚ
  mongo_test : String
  pg_test : String
deriving DecidableEq

/-- `DatabaseBenchmark._generate_findings(results)` (comparisons.py lines
420-440).  `results` maps each category name to its list of named test results,
in insertion order.  For each category the tests whose lowered name contains
"mongo" are paired with those whose lowered name contains "postgres"; for each
pair the code computes `diff_percent = (mongo_mean - pg_mean) / pg_mean * 100`
and appends a finding exactly when `abs(diff_percent) > 10`, naming MongoDB as
faster when `diff_percent < 0` and PostgreSQL otherwise. -/
def generate_findings (results : List (String × List (String × QueryResult))) :
    List Finding :=
  results.flatMap fun ct =>
    let mongo_tests := ct.2.filter fun t => containsSub "mongo".data (lowerStr t.1)
    let pg_tests := ct.2.filter fun t => containsSub "postgres".data (lowerStr t.1)
    mongo_tests.flatMap fun mt =>
      pg_tests.filterMap fun pt =>
        let diff_percent := (mt.2.mean - pt.2.mean) / pt.2.mean * 100
        if 10 < |diff_percent| then
          some { category := ct.1
                 faster_db := if diff_percent < 0 then "MongoDB" else "PostgreSQL"
                 percent := |diff_percent|
                 mongo_test := mt.1
                 pg_test := pt.1 }
        else none

lemma chunkGo_eq_of_le {α : Type} (batch_size : Nat) (hbs : 0 < batch_size) :
    ∀ fuel₁ fuel₂ (l : List α), l.length ≤ fuel₁ → l.length ≤ fuel₂ →
      chunkGo batch_size fuel₁ l = chunkGo batch_size fuel₂ l := by
  intro fuel₁
  induction fuel₁ with
  | zero =>
    intro fuel₂ l h₁ _
    have hl : l = [] := List.length_eq_zero.mp (Nat.le_zero.mp h₁)
    subst hl
    cases fuel₂ <;> rfl
  | succ f ih =>
    intro fuel₂ l h₁ h₂
    cases l with
    | nil => cases fuel₂ <;> rfl
    | cons x t =>
      cases fuel₂ with
      | zero => simp at h₂
      | succ f₂ =>
        show List.take batch_size (x :: t) :: chunkGo batch_size f ((x :: t).drop batch_size)
            = List.take batch_size (x :: t) :: chunkGo batch_size f₂ ((x :: t).drop batch_size)
        have hdrop : ((x :: t).drop batch_size).length ≤ t.length := by
          rw [List.length_drop]
          simp only [List.length_cons]
          omega
        have hlen : t.length ≤ f := by simpa using h₁
        have hlen₂ : t.length ≤ f₂ := by simpa using h₂
        rw [ih f₂ ((x :: t).drop batch_size) (le_trans hdrop hlen) (le_trans hdrop hlen₂)]

lemma chunkList_nil {α : Type} (batch_size : Nat) :
    chunkList batch_size ([] : List α) = [] := rfl

lemma chunkList_cons {α : Type} (batch_size : Nat) (hbs : 0 < batch_size)
    (l : List α) (hl : l ≠ []) :
    chunkList batch_size l =
      l.take batch_size :: chunkList batch_size (l.drop batch_size) := by
  cases l with
  | nil => exact absurd rfl hl
  | cons x t =>
    show chunkGo batch_size (t.length + 1) (x :: t)
        = (x :: t).take batch_size :: chunkGo batch_size ((x :: t).drop batch_size).length ((x :: t).drop batch_size)
    have hdrop : ((x :: t).drop batch_size).length ≤ t.length := by
      rw [List.length_drop]
      simp only [List.length_cons]
      omega
    show (x :: t).take batch_size :: chunkGo batch_size t.length ((x :: t).drop batch_size)
        = (x :: t).take batch_size :: chunkGo batch_size ((x :: t).drop batch_size).length ((x :: t).drop batch_size)
    rw [chunkGo_eq_of_le batch_size hbs t.length ((x :: t).drop batch_size).length
      ((x :: t).drop batch_size) hdrop le_rfl]

/-- Induction principle following the recursion pattern of the slicing loop. -/
lemma chunk_induction {α : Type} (batch_size : Nat) (hbs : 0 < batch_size)
    {P : List α → Prop} (h0 : P []) (hstep : ∀ l, l ≠ [] → P (l.drop batch_size) → P l) :
    ∀ l, P l := by
  have key : ∀ (n : Nat) (l : List α), l.length ≤ n → P l := by
    intro n
    induction n with
    | zero =>
      intro l h
      have : l = [] := List.length_eq_zero.mp (Nat.le_zero.mp h)
      exact this ▸ h0
    | succ m ih =>
      intro l h
      rcases eq_or_ne l [] with rfl | hne
      · exact h0
      · refine hstep l hne (ih (l.drop batch_size) ?_)
        rw [List.length_drop]
        have hpos : 1 ≤ l.length := List.length_pos.mpr hne
        omega
  exact fun l => key l.length l le_rfl

lemma chunkList_length {α : Type} (batch_size : Nat) (hbs : 0 < batch_size)
    (l : List α) :
    (chunkList batch_size l).length = (l.length + batch_size - 1) / batch_size := by
  induction l using chunk_induction batch_size hbs with
  | h0 =>
    rw [chunkList_nil]
    simp only [List.length_nil, List.length]
    rw [Nat.zero_add, Nat.div_eq_of_lt (by omega)]
  | hstep l hl ih =>
    rw [chunkList_cons batch_size hbs l hl]
    simp only [List.length_cons, ih, List.length_drop]
    have hn : 1 ≤ l.length := List.length_pos.mpr hl
    rcases le_or_lt batch_size l.length with hb | hb
    · have h₁ : l.length - batch_size + batch_size - 1 = l.length - 1 := by omega
      have h₂ : l.length + batch_size - 1 = l.length - 1 + batch_size := by omega
      rw [h₁, h₂, Nat.add_div_right _ hbs]
    · have h₁ : l.length - batch_size = 0 := by omega
      rw [h₁]
      have h₂ : (0 + batch_size - 1) / batch_size = 0 :=
        Nat.div_eq_of_lt (by omega)
      rw [h₂]
      have h₃ : (l.length + batch_size - 1) / batch_size = 1 :=
        Nat.div_eq_of_lt_le (by omega) (by omega)
      rw [h₃]

lemma chunkList_sum_lengths {α : Type} (batch_size : Nat) (hbs : 0 < batch_size)
    (l : List α) :
    ((chunkList batch_size l).map List.length).sum = l.length := by
  induction l using chunk_induction batch_size hbs with
  | h0 => rw [chunkList_nil]; rfl
  | hstep l hl ih =>
    rw [chunkList_cons batch_size hbs l hl]
    simp only [List.map_cons, List.sum_cons, ih, List.length_take, List.length_drop]
    omega

lemma chunkList_flatten {α : Type} (batch_size : Nat) (hbs : 0 < batch_size)
    (l : List α) :
    (chunkList batch_size l).flatten = l := by
  induction l using chunk_induction batch_size hbs with
  | h0 => rw [chunkList_nil]; rfl
  | hstep l hl ih =>
    rw [chunkList_cons batch_size hbs l hl]
    simp only [List.flatten_cons, ih, List.take_append_drop]

lemma chunkList_mem {α : Type} (batch_size : Nat) (hbs : 0 < batch_size)
    (l : List α) :
    ∀ c ∈ chunkList batch_size l, c ≠ [] ∧ c.length ≤ batch_size := by
  induction l using chunk_induction batch_size hbs with
  | h0 => intro c hc; rw [chunkList_nil] at hc; simp at hc
  | hstep l hl ih =>
    intro c hc
    rw [chunkList_cons batch_size hbs l hl] at hc
    rcases List.mem_cons.mp hc with h | h
    · subst h
      constructor
      · simp only [ne_eq, List.take_eq_nil_iff]
        push_neg
        exact ⟨by omega, hl⟩
      · rw [List.length_take]; omega
    · exact ih c h

lemma bulkLoop_no_fatal {α : Type} (backend : Nat → BatchOutcome) :
    ∀ (batches : List (List α)) (idx : Nat) (ins : Nat) (fail : Int),
      (∀ j, j < batches.length → isFatal (backend (idx + j)) = false) →
      bulkLoop backend batches idx ins fail =
        some (ins + insSum backend idx batches, fail + failSum backend idx batches) := by
  intro batches
  induction batches with
  | nil => intro idx ins fail _; simp [bulkLoop, insSum, failSum]
  | cons b rest ih =>
    intro idx ins fail h
    have h0 : isFatal (backend idx) = false := by simpa using h 0 (by simp)
    have hrest : ∀ j, j < rest.length → isFatal (backend (idx + 1 + j)) = false := by
      intro j hj
      have heq : idx + 1 + j = idx + (j + 1) := by omega
      rw [heq]
      exact h (j + 1) (by simpa using Nat.succ_lt_succ hj)
    cases hb : backend idx with
    | success c =>
      simp only [bulkLoop, hb]
      rw [ih (idx + 1) (ins + c) fail hrest]
      simp [insSum, failSum, hb, Nat.add_assoc]
    | bulkWriteError n =>
      simp only [bulkLoop, hb]
      rw [ih (idx + 1) ins (fail + ((b.length : Int) - (n : Int))) hrest]
      simp [insSum, failSum, hb, add_assoc]
    | fatal => rw [hb] at h0; simp [isFatal] at h0

lemma bulkLoop_fatal {α : Type} (backend : Nat → BatchOutcome) :
    ∀ (batches : List (List α)) (idx : Nat) (ins : Nat) (fail : Int),
      (∃ j, j < batches.length ∧ isFatal (backend (idx + j)) = true) →
      bulkLoop backend batches idx ins fail = none := by
  intro batches
  induction batches with
  | nil =>
    intro idx ins fail h
    obtain ⟨j, hj, _⟩ := h
    simp at hj
  | cons b rest ih =>
    intro idx ins fail h
    obtain ⟨j, hj, hf⟩ := h
    cases hb : backend idx with
    | fatal => simp [bulkLoop, hb]
    | success c =>
      simp only [bulkLoop, hb]
      apply ih
      cases j with
      | zero =>
        rw [Nat.add_zero, hb] at hf
        simp [isFatal] at hf
      | succ j' =>
        refine ⟨j', by simp at hj; omega, ?_⟩
        have heq : idx + 1 + j' = idx + (j' + 1) := by omega
        rw [heq]
        exact hf
    | bulkWriteError n =>
      simp only [bulkLoop, hb]
      apply ih
      cases j with
      | zero =>
        rw [Nat.add_zero, hb] at hf
        simp [isFatal] at hf
      | succ j' =>
        refine ⟨j', by simp at hj; omega, ?_⟩
        have heq : idx + 1 + j' = idx + (j' + 1) := by omega
        rw [heq]
        exact hf


lemma insSum_cons_success {α : Type} {backend : Nat → BatchOutcome} {idx c : Nat}
    (hb : backend idx = .success c) (b : List α) (rest : List (List α)) :
    insSum backend idx (b :: rest) = c + insSum backend (idx + 1) rest := by
  simp [insSum, hb]

lemma insSum_cons_err {α : Type} {backend : Nat → BatchOutcome} {idx n : Nat}
    (hb : backend idx = .bulkWriteError n) (b : List α) (rest : List (List α)) :
    insSum backend idx (b :: rest) = insSum backend (idx + 1) rest := by
  simp [insSum, hb]

lemma insSum_cons_fatal {α : Type} {backend : Nat → BatchOutcome} {idx : Nat}
    (hb : backend idx = .fatal) (b : List α) (rest : List (List α)) :
    insSum backend idx (b :: rest) = insSum backend (idx + 1) rest := by
  simp [insSum, hb]

lemma failSum_cons_success {α : Type} {backend : Nat → BatchOutcome} {idx c : Nat}
    (hb : backend idx = .success c) (b : List α) (rest : List (List α)) :
    failSum backend idx (b :: rest) = failSum backend (idx + 1) rest := by
  simp [failSum, hb]

lemma failSum_cons_err {α : Type} {backend : Nat → BatchOutcome} {idx n : Nat}
    (hb : backend idx = .bulkWriteError n) (b : List α) (rest : List (List α)) :
    failSum backend idx (b :: rest) =
      ((b.length : Int) - (n : Int)) + failSum backend (idx + 1) rest := by
  simp [failSum, hb]

lemma failSum_cons_fatal {α : Type} {backend : Nat → BatchOutcome} {idx : Nat}
    (hb : backend idx = .fatal) (b : List α) (rest : List (List α)) :
    failSum backend idx (b :: rest) = failSum backend (idx + 1) rest := by
  simp [failSum, hb]

lemma nInsSum_cons_success {α : Type} {backend : Nat → BatchOutcome} {idx c : Nat}
    (hb : backend idx = .success c) (b : List α) (rest : List (List α)) :
    nInsSum backend idx (b :: rest) = nInsSum backend (idx + 1) rest := by
  simp [nInsSum, hb]

lemma nInsSum_cons_err {α : Type} {backend : Nat → BatchOutcome} {idx n : Nat}
    (hb : backend idx = .bulkWriteError n) (b : List α) (rest : List (List α)) :
    nInsSum backend idx (b :: rest) = (n : Int) + nInsSum backend (idx + 1) rest := by
  simp [nInsSum, hb]

lemma nInsSum_cons_fatal {α : Type} {backend : Nat → BatchOutcome} {idx : Nat}
    (hb : backend idx = .fatal) (b : List α) (rest : List (List α)) :
    nInsSum backend idx (b :: rest) = nInsSum backend (idx + 1) rest := by
  simp [nInsSum, hb]

lemma insSum_add_failSum_le {α : Type} (backend : Nat → BatchOutcome) :
    ∀ (batches : List (List α)) (idx : Nat),
      (∀ j (h : j < batches.length),
          reportBounded (backend (idx + j)) (batches.get ⟨j, h⟩).length = true) →
      (insSum backend idx batches : Int) + failSum backend idx batches ≤
        ((batches.map List.length).sum : Int) := by
  intro batches
  induction batches with
  | nil => intro idx _; simp [insSum, failSum]
  | cons b rest ih =>
    intro idx h
    have h0 : reportBounded (backend idx) b.length = true := h 0 (by simp)
    have hrest : ∀ j (hj : j < rest.length),
        reportBounded (backend (idx + 1 + j)) (rest.get ⟨j, hj⟩).length = true := by
      intro j hj
      have heq : idx + 1 + j = idx + (j + 1) := by omega
      rw [heq]
      exact h (j + 1) (by simpa using Nat.succ_lt_succ hj)
    have htail := ih (idx + 1) hrest
    cases hb : backend idx with
    | success c =>
      rw [hb] at h0
      have hc : c ≤ b.length := by simpa [reportBounded] using h0
      rw [insSum_cons_success hb, failSum_cons_success hb, List.map_cons, List.sum_cons]
      simp only [Int.natCast_add]
      omega
    | bulkWriteError n =>
      rw [insSum_cons_err hb, failSum_cons_err hb, List.map_cons, List.sum_cons]
      simp only [Int.natCast_add]
      omega
    | fatal =>
      rw [insSum_cons_fatal hb, failSum_cons_fatal hb, List.map_cons, List.sum_cons]
      simp only [Int.natCast_add]
      omega

lemma insSum_add_failSum_eq {α : Type} (backend : Nat → BatchOutcome) :
    ∀ (batches : List (List α)) (idx : Nat),
      (∀ j (h : j < batches.length),
          fullAccount (backend (idx + j)) (batches.get ⟨j, h⟩).length = true) →
      (∀ j, j < batches.length → isFatal (backend (idx + j)) = false) →
      (insSum backend idx batches : Int) + failSum backend idx batches =
        ((batches.map List.length).sum : Int) := by
  intro batches
  induction batches with
  | nil => intro idx _ _; simp [insSum, failSum]
  | cons b rest ih =>
    intro idx h hnf
    have h0 : fullAccount (backend idx) b.length = true := h 0 (by simp)
    have hnf0 : isFatal (backend idx) = false := by simpa using hnf 0 (by simp)
    have hrest : ∀ j (hj : j < rest.length),
        fullAccount (backend (idx + 1 + j)) (rest.get ⟨j, hj⟩).length = true := by
      intro j hj
      have heq : idx + 1 + j = idx + (j + 1) := by omega
      rw [heq]
      exact h (j + 1) (by simpa using Nat.succ_lt_succ hj)
    have hnfrest : ∀ j, j < rest.length → isFatal (backend (idx + 1 + j)) = false := by
      intro j hj
      have heq : idx + 1 + j = idx + (j + 1) := by omega
      rw [heq]
      exact hnf (j + 1) (by simpa using Nat.succ_lt_succ hj)
    have htail := ih (idx + 1) hrest hnfrest
    cases hb : backend idx with
    | success c =>
      rw [hb] at h0
      have hc : c = b.length := by simpa [fullAccount] using h0
      rw [insSum_cons_success hb, failSum_cons_success hb, List.map_cons, List.sum_cons]
      simp only [Int.natCast_add]
      omega
    | bulkWriteError n =>
      rw [hb] at h0
      have hn : n = 0 := by simpa [fullAccount] using h0
      rw [insSum_cons_err hb, failSum_cons_err hb, List.map_cons, List.sum_cons]
      simp only [Int.natCast_add]
      omega
    | fatal => rw [hb] at hnf0; simp [isFatal] at hnf0

lemma insSum_add_failSum_eq_sub {α : Type} (backend : Nat → BatchOutcome) :
    ∀ (batches : List (List α)) (idx : Nat),
      (∀ j (h : j < batches.length),
          fullSuccess (backend (idx + j)) (batches.get ⟨j, h⟩).length = true) →
      (∀ j, j < batches.length → isFatal (backend (idx + j)) = false) →
      (insSum backend idx batches : Int) + failSum backend idx batches =
        ((batches.map List.length).sum : Int) - nInsSum backend idx batches := by
  intro batches
  induction batches with
  | nil => intro idx _ _; simp [insSum, failSum, nInsSum]
  | cons b rest ih =>
    intro idx h hnf
    have h0 : fullSuccess (backend idx) b.length = true := h 0 (by simp)
    have hnf0 : isFatal (backend idx) = false := by simpa using hnf 0 (by simp)
    have hrest : ∀ j (hj : j < rest.length),
        fullSuccess (backend (idx + 1 + j)) (rest.get ⟨j, hj⟩).length = true := by
      intro j hj
      have heq : idx + 1 + j = idx + (j + 1) := by omega
      rw [heq]
      exact h (j + 1) (by simpa using Nat.succ_lt_succ hj)
    have hnfrest : ∀ j, j < rest.length → isFatal (backend (idx + 1 + j)) = false := by
      intro j hj
      have heq : idx + 1 + j = idx + (j + 1) := by omega
      rw [heq]
      exact hnf (j + 1) (by simpa using Nat.succ_lt_succ hj)
    have htail := ih (idx + 1) hrest hnfrest
    cases hb : backend idx with
    | success c =>
      rw [hb] at h0
      have hc : c = b.length := by simpa [fullSuccess] using h0
      rw [insSum_cons_success hb, failSum_cons_success hb, nInsSum_cons_success hb,
        List.map_cons, List.sum_cons]
      simp only [Int.natCast_add]
      omega
    | bulkWriteError n =>
      rw [insSum_cons_err hb, failSum_cons_err hb, nInsSum_cons_err hb,
        List.map_cons, List.sum_cons]
      simp only [Int.natCast_add]
      omega
    | fatal => rw [hb] at hnf0; simp [isFatal] at hnf0

lemma ewqGo_all_ok {ε : Type} (clock : Nat → ℚ) (fails : Nat → Option ε) :
    ∀ (r i : Nat), (∀ j, j < r → fails (i + j) = none) →
      ewqGo clock fails r i =
        ((List.range r).map (fun j => i + j),
         Except.ok ((List.range r).map
           (fun j => clock (2 * (i + j) + 1) - clock (2 * (i + j))))) := by
  intro r
  induction r with
  | zero => intro i _; simp [ewqGo]
  | succ m ih =>
    intro i h
    have h0 : fails i = none := by simpa using h 0 (by omega)
    have hrest : ∀ j, j < m → fails (i + 1 + j) = none := by
      intro j hj
      have heq : i + 1 + j = i + (j + 1) := by omega
      rw [heq]
      exact h (j + 1) (by omega)
    simp only [ewqGo, h0]
    rw [ih (i + 1) hrest]
    have hmap1 : List.map ((fun j => i + j) ∘ Nat.succ) (List.range m) =
        List.map (fun j => i + 1 + j) (List.range m) := by
      apply List.map_congr_left
      intro a _
      simp only [Function.comp_apply]
      omega
    have hmap2 : List.map ((fun j => clock (2 * (i + j) + 1) - clock (2 * (i + j))) ∘ Nat.succ)
        (List.range m) =
        List.map (fun j => clock (2 * (i + 1 + j) + 1) - clock (2 * (i + 1 + j))) (List.range m) := by
      apply List.map_congr_left
      intro a _
      simp only [Function.comp_apply]
      have h1 : i + (a + 1) = i + 1 + a := by omega
      rw [h1]
    simp only [List.range_succ_eq_map, List.map_cons, List.map_map, hmap1, hmap2, Nat.add_zero]

lemma ewqGo_first_fail {ε : Type} (clock : Nat → ℚ) (fails : Nat → Option ε) :
    ∀ (j r i : Nat) (e : ε), j < r → fails (i + j) = some e →
      (∀ t, t < j → fails (i + t) = none) →
      ewqGo clock fails r i = ((List.range (j + 1)).map (fun t => i + t), Except.error e) := by
  intro j
  induction j with
  | zero =>
    intro r i e hr hf _
    cases r with
    | zero => omega
    | succ m =>
      rw [Nat.add_zero] at hf
      simp [ewqGo, hf, List.range_succ]
  | succ k ih =>
    intro r i e hr hf hprev
    cases r with
    | zero => omega
    | succ m =>
      have h0 : fails i = none := by simpa using hprev 0 (by omega)
      simp only [ewqGo, h0]
      have hf' : fails (i + 1 + k) = some e := by
        have heq : i + 1 + k = i + (k + 1) := by omega
        rw [heq]; exact hf
      have hprev' : ∀ t, t < k → fails (i + 1 + t) = none := by
        intro t ht
        have heq : i + 1 + t = i + (t + 1) := by omega
        rw [heq]
        exact hprev (t + 1) (by omega)
      rw [ih m (i + 1) e (by omega) hf' hprev']
      have hmap1 : List.map ((fun t => i + t) ∘ Nat.succ) (List.range (k + 1)) =
          List.map (fun t => i + 1 + t) (List.range (k + 1)) := by
        apply List.map_congr_left
        intro a _
        simp only [Function.comp_apply]
        omega
      conv_rhs => rw [List.range_succ_eq_map]
      simp only [List.map_cons, List.map_map, hmap1, Nat.add_zero]

lemma insertSorted_perm (x : ℚ) : ∀ l : List ℚ, (insertSorted x l).Perm (x :: l) := by
  intro l
  induction l with
  | nil => simp [insertSorted]
  | cons y t ih =>
    by_cases h : x ≤ y
    · simp [insertSorted, h]
    · simp only [insertSorted, if_neg h]
      exact (ih.cons y).trans (List.Perm.swap x y t)

lemma sortList_perm : ∀ l : List ℚ, (sortList l).Perm l := by
  intro l
  induction l with
  | nil => exact List.Perm.refl _
  | cons x t ih => exact (insertSorted_perm x (sortList t)).trans (ih.cons x)

lemma insertSorted_sorted (x : ℚ) :
    ∀ l : List ℚ, l.Sorted (· ≤ ·) → (insertSorted x l).Sorted (· ≤ ·) := by
  intro l
  induction l with
  | nil => intro _; simp [insertSorted]
  | cons y t ih =>
    intro h
    rw [List.sorted_cons] at h
    obtain ⟨hy, ht⟩ := h
    by_cases hxy : x ≤ y
    · simp only [insertSorted, if_pos hxy]
      rw [List.sorted_cons]
      refine ⟨?_, ?_⟩
      · intro b hb
        rcases List.mem_cons.mp hb with rfl | hb
        · exact hxy
        · exact le_trans hxy (hy b hb)
      · rw [List.sorted_cons]
        exact ⟨hy, ht⟩
    · simp only [insertSorted, if_neg hxy]
      rw [List.sorted_cons]
      refine ⟨?_, ih ht⟩
      intro b hb
      rcases List.mem_cons.mp ((insertSorted_perm x t).mem_iff.mp hb) with rfl | hb'
      · exact le_of_not_le hxy
      · exact hy b hb'

lemma sortList_sorted : ∀ l : List ℚ, (sortList l).Sorted (· ≤ ·) := by
  intro l
  induction l with
  | nil => simp [sortList]
  | cons x t ih => exact insertSorted_sorted x (sortList t) ih

lemma sortList_length (l : List ℚ) : (sortList l).length = l.length :=
  (sortList_perm l).length_eq

lemma sortList_getD_mem (l : List ℚ) (k : Nat) (hk : k < l.length) :
    (sortList l).getD k 0 ∈ l := by
  have hlen : k < (sortList l).length := by rw [sortList_length]; exact hk
  rw [List.getD_eq_getElem _ _ hlen]
  exact (sortList_perm l).mem_iff.mp (List.getElem_mem hlen)

lemma foldl_min_le_init : ∀ (t : List ℚ) (a : ℚ), t.foldl min a ≤ a := by
  intro t
  induction t with
  | nil => intro a; exact le_refl a
  | cons y t ih => intro a; exact le_trans (ih (min a y)) (min_le_left a y)

lemma foldl_min_le_mem : ∀ (t : List ℚ) (a x : ℚ), x ∈ t → t.foldl min a ≤ x := by
  intro t
  induction t with
  | nil => intro a x hx; simp at hx
  | cons y t ih =>
    intro a x hx
    rcases List.mem_cons.mp hx with rfl | hx
    · exact le_trans (foldl_min_le_init t (min a x)) (min_le_right a x)
    · exact ih (min a y) x hx

lemma foldl_min_mem : ∀ (t : List ℚ) (a : ℚ), t.foldl min a = a ∨ t.foldl min a ∈ t := by
  intro t
  induction t with
  | nil => intro a; left; rfl
  | cons y t ih =>
    intro a
    rcases ih (min a y) with h | h
    · rcases min_choice a y with hm | hm
      · left
        show List.foldl min (min a y) t = a
        rw [h, hm]
      · right
        show List.foldl min (min a y) t ∈ y :: t
        rw [h, hm]
        exact List.mem_cons_self y t
    · right
      exact List.mem_cons_of_mem y h

lemma foldl_max_init_le : ∀ (t : List ℚ) (a : ℚ), a ≤ t.foldl max a := by
  intro t
  induction t with
  | nil => intro a; exact le_refl a
  | cons y t ih => intro a; exact le_trans (le_max_left a y) (ih (max a y))

lemma foldl_max_mem_le : ∀ (t : List ℚ) (a x : ℚ), x ∈ t → x ≤ t.foldl max a := by
  intro t
  induction t with
  | nil => intro a x hx; simp at hx
  | cons y t ih =>
    intro a x hx
    rcases List.mem_cons.mp hx with rfl | hx
    · exact le_trans (le_max_right a x) (foldl_max_init_le t (max a x))
    · exact ih (max a y) x hx

lemma foldl_max_mem : ∀ (t : List ℚ) (a : ℚ), t.foldl max a = a ∨ t.foldl max a ∈ t := by
  intro t
  induction t with
  | nil => intro a; left; rfl
  | cons y t ih =>
    intro a
    rcases ih (max a y) with h | h
    · rcases max_choice a y with hm | hm
      · left
        show List.foldl max (max a y) t = a
        rw [h, hm]
      · right
        show List.foldl max (max a y) t ∈ y :: t
        rw [h, hm]
        exact List.mem_cons_self y t
    · right
      exact List.mem_cons_of_mem y h

lemma listMin_le (l : List ℚ) (x : ℚ) (hx : x ∈ l) : listMin l ≤ x := by
  cases l with
  | nil => simp at hx
  | cons y t =>
    rcases List.mem_cons.mp hx with rfl | hx
    · exact foldl_min_le_init t x
    · exact foldl_min_le_mem t y x hx

lemma listMin_mem (l : List ℚ) (hl : l ≠ []) : listMin l ∈ l := by
  cases l with
  | nil => exact absurd rfl hl
  | cons y t =>
    rcases foldl_min_mem t y with h | h
    · rw [show listMin (y :: t) = List.foldl min y t from rfl, h]
      exact List.mem_cons_self y t
    · exact List.mem_cons_of_mem y h

lemma le_listMax (l : List ℚ) (x : ℚ) (hx : x ∈ l) : x ≤ listMax l := by
  cases l with
  | nil => simp at hx
  | cons y t =>
    rcases List.mem_cons.mp hx with rfl | hx
    · exact foldl_max_init_le t x
    · exact foldl_max_mem_le t y x hx

lemma listMax_mem (l : List ℚ) (hl : l ≠ []) : listMax l ∈ l := by
  cases l with
  | nil => exact absurd rfl hl
  | cons y t =>
    rcases foldl_max_mem t y with h | h
    · rw [show listMax (y :: t) = List.foldl max y t from rfl, h]
      exact List.mem_cons_self y t
    · exact List.mem_cons_of_mem y h

lemma ratSqrt_sq (r : ℚ) (hr : 0 ≤ r) : ratSqrt (r ^ 2) = r := by
  have hnn : 0 ≤ r.num := Rat.num_nonneg.mpr hr
  obtain ⟨m, hm⟩ := Int.eq_ofNat_of_zero_le hnn
  unfold ratSqrt
  rw [Rat.num_pow, Rat.den_pow, hm]
  have h2 : ((m : Int) ^ 2).toNat = m ^ 2 := by
    rw [show ((m : Int) ^ 2) = ((m ^ 2 : Nat) : Int) by push_cast; ring]
    exact Int.toNat_ofNat _
  rw [h2]
  have h3 : Nat.sqrt (m ^ 2) = m := by rw [pow_two]; exact Nat.sqrt_eq m
  have h4 : Nat.sqrt (r.den ^ 2) = r.den := by rw [pow_two]; exact Nat.sqrt_eq r.den
  rw [h3, h4]
  have h5 : ((m : ℚ)) = ((r.num : Int) : ℚ) := by rw [hm]; push_cast; ring
  rw [h5]
  exact Rat.num_div_den r

lemma listMedian_mem_of_odd (l : List ℚ) (h : l.length % 2 = 1) : listMedian l ∈ l := by
  unfold listMedian
  rw [if_pos h]
  exact sortList_getD_mem l _ (by omega)

lemma listMedian_bounds (l : List ℚ) (hl : l ≠ []) :
    listMin l ≤ listMedian l ∧ listMedian l ≤ listMax l := by
  have hn : 1 ≤ l.length := List.length_pos.mpr hl
  by_cases h : l.length % 2 = 1
  · have hmem := listMedian_mem_of_odd l h
    exact ⟨listMin_le l _ hmem, le_listMax l _ hmem⟩
  · have h2 : 2 ≤ l.length := by omega
    have ha : (sortList l).getD (l.length / 2 - 1) 0 ∈ l := sortList_getD_mem l _ (by omega)
    have hb : (sortList l).getD (l.length / 2) 0 ∈ l := sortList_getD_mem l _ (by omega)
    unfold listMedian
    rw [if_neg h]
    constructor
    · have hx := listMin_le l _ ha
      have hy := listMin_le l _ hb
      linarith
    · have hx := le_listMax l _ ha
      have hy := le_listMax l _ hb
      linarith

lemma bulk_insert_eq_of_no_fatal {α : Type} (backend : Nat → BatchOutcome)
    (documents : List (Option α)) (batch_size : Nat)
    (hnf : ∀ j, j < (loadBatches documents batch_size).length → isFatal (backend j) = false) :
    bulk_insert_documents backend documents batch_size =
      some (insSum backend 0 (loadBatches documents batch_size),
            failSum backend 0 (loadBatches documents batch_size)) := by
  have h := bulkLoop_no_fatal backend (loadBatches documents batch_size) 0 0 0 ?_
  · simpa using h
  · intro j hj
    rw [Nat.zero_add]
    exact hnf j hj

lemma bulk_insert_none_of_fatal {α : Type} (backend : Nat → BatchOutcome)
    (documents : List (Option α)) (batch_size : Nat)
    (hf : ∃ j, j < (loadBatches documents batch_size).length ∧ isFatal (backend j) = true) :
    bulk_insert_documents backend documents batch_size = none := by
  obtain ⟨j, hj, hfat⟩ := hf
  exact bulkLoop_fatal backend _ 0 0 0 ⟨j, hj, by rwa [Nat.zero_add]⟩

lemma no_fatal_of_bulk_some {α : Type} (backend : Nat → BatchOutcome)
    (documents : List (Option α)) (batch_size : Nat) (p : Nat × Int)
    (heq : bulk_insert_documents backend documents batch_size = some p) :
    ∀ j, j < (loadBatches documents batch_size).length → isFatal (backend j) = false := by
  intro j hj
  by_contra hcon
  have hfat : isFatal (backend j) = true := by
    cases hval : isFatal (backend j)
    · exact absurd hval hcon
    · rfl
  rw [bulk_insert_none_of_fatal backend documents batch_size ⟨j, hj, hfat⟩] at heq
  exact Option.noConfusion heq

/-- C5: for every positive batch size `B` and every document list, the load
partitions the filtered records into consecutive non-empty batches of at most
`B` records each: exactly `ceil(N/B) = (N + B - 1) / B` batches are produced
(the `total_batches` formula of mongodb-script.py line 136), the batch sizes sum
to `N`, and concatenating the batches in submission order returns the filtered
record sequence itself, so batches are submitted in partition order. -/
theorem spec_C5 {α : Type} (documents : List (Option α)) (batch_size : Nat)
    (hbs : 0 < batch_size) :
    (loadBatches documents batch_size).length =
      ((documents.filterMap id).length + batch_size - 1) / batch_size ∧
    ((loadBatches documents batch_size).map List.length).sum =
      (documents.filterMap id).length ∧
    (∀ c ∈ loadBatches documents batch_size, c ≠ [] ∧ c.length ≤ batch_size) ∧
    (loadBatches documents batch_size).flatten = documents.filterMap id :=
  ⟨chunkList_length batch_size hbs _, chunkList_sum_lengths batch_size hbs _,
   chunkList_mem batch_size hbs _, chunkList_flatten batch_size hbs _⟩

/-- C5 witness: four submitted records, one invalid, batch size 2. -/
theorem spec_C5_witness :
    (loadBatches [some 1, none, some 2, some 3] 2).length =
      (([some 1, none, some 2, some 3].filterMap id).length + 2 - 1) / 2 ∧
    ((loadBatches [some 1, none, some 2, some 3] 2).map List.length).sum =
      ([some 1, none, some 2, some 3].filterMap id).length ∧
    (∀ c ∈ loadBatches [some 1, none, some 2, some 3] 2, c ≠ [] ∧ c.length ≤ 2) ∧
    (loadBatches [some 1, none, some 2, some 3] 2).flatten =
      [some 1, none, some 2, some 3].filterMap id :=
  spec_C5 [some 1, none, some 2, some 3] 2 (by decide)

/-- C1: for every load over `N` filtered records whose backend reports at most
the batch size as inserted, a returned outcome satisfies
`inserted + failed ≤ N`; when the backend additionally gives full accounting for
every batch (completed batches report the whole batch inserted and partial
failures report `nInserted = 0`, so no record is silently skipped),
`inserted + failed = N`. -/
theorem spec_C1 {α : Type} (backend : Nat → BatchOutcome) (documents : List (Option α))
    (batch_size : Nat) (hbs : 0 < batch_size)
    (hbounded : ∀ j (h : j < (loadBatches documents batch_size).length),
        reportBounded (backend j)
          ((loadBatches documents batch_size).get ⟨j, h⟩).length = true) :
    (∀ ins fail, bulk_insert_documents backend documents batch_size = some (ins, fail) →
        (ins : Int) + fail ≤ ((documents.filterMap id).length : Int)) ∧
    ((∀ j (h : j < (loadBatches documents batch_size).length),
        fullAccount (backend j)
          ((loadBatches documents batch_size).get ⟨j, h⟩).length = true) →
      ∀ ins fail, bulk_insert_documents backend documents batch_size = some (ins, fail) →
        (ins : Int) + fail = ((documents.filterMap id).length : Int)) := by
  have hsum : (((loadBatches documents batch_size).map List.length).sum : Int) =
      ((documents.filterMap id).length : Int) :=
    congrArg Nat.cast (chunkList_sum_lengths batch_size hbs _)
  constructor
  · intro ins fail heq
    have hnf := no_fatal_of_bulk_some backend documents batch_size _ heq
    have hchar := bulk_insert_eq_of_no_fatal backend documents batch_size hnf
    have hpair := Option.some.inj (hchar.symm.trans heq)
    have h1 : insSum backend 0 (loadBatches documents batch_size) = ins :=
      congrArg Prod.fst hpair
    have h2 : failSum backend 0 (loadBatches documents batch_size) = fail :=
      congrArg Prod.snd hpair
    rw [← h1, ← h2, ← hsum]
    apply insSum_add_failSum_le
    intro j h
    rw [Nat.zero_add]
    exact hbounded j h
  · intro hfull ins fail heq
    have hnf := no_fatal_of_bulk_some backend documents batch_size _ heq
    have hchar := bulk_insert_eq_of_no_fatal backend documents batch_size hnf
    have hpair := Option.some.inj (hchar.symm.trans heq)
    have h1 : insSum backend 0 (loadBatches documents batch_size) = ins :=
      congrArg Prod.fst hpair
    have h2 : failSum backend 0 (loadBatches documents batch_size) = fail :=
      congrArg Prod.snd hpair
    rw [← h1, ← h2, ← hsum]
    apply insSum_add_failSum_eq
    · intro j h
      rw [Nat.zero_add]
      exact hfull j h
    · intro j h
      rw [Nat.zero_add]
      exact hnf j h

/-- C1 witness: three valid records in two batches, the backend inserting every
batch in full, giving `inserted + failed = 3` and in particular `≤ 3`. -/
theorem spec_C1_witness :
    (∀ ins fail,
        bulk_insert_documents (fun j => if j = 0 then BatchOutcome.success 2 else BatchOutcome.success 1)
          [some 10, none, some 20, some 30] 2 = some (ins, fail) →
        (ins : Int) + fail ≤ (([some 10, none, some 20, some 30].filterMap id).length : Int)) ∧
    ((∀ j (h : j < (loadBatches [some 10, none, some 20, some 30] 2).length),
        fullAccount ((fun j => if j = 0 then BatchOutcome.success 2 else BatchOutcome.success 1) j)
          ((loadBatches [some 10, none, some 20, some 30] 2).get ⟨j, h⟩).length = true) →
      ∀ ins fail,
        bulk_insert_documents (fun j => if j = 0 then BatchOutcome.success 2 else BatchOutcome.success 1)
          [some 10, none, some 20, some 30] 2 = some (ins, fail) →
        (ins : Int) + fail = (([some 10, none, some 20, some 30].filterMap id).length : Int)) :=
  spec_C1 (fun j => if j = 0 then BatchOutcome.success 2 else BatchOutcome.success 1)
    [some 10, none, some 20, some 30] 2 (by decide) (by decide)

/-- C2: during a bulk load, every batch that raises `BulkWriteError` contributes
`failed_in_batch = len(batch) - nInserted` to the running failed total while the
load continues over all remaining batches (when no batch fails fatally the loop
completes and returns the accumulated sums over every batch), whereas a
batch-level total failure makes the whole load call raise to the caller with no
retry, modelled by the `none` result. -/
theorem spec_C2 {α : Type} (backend : Nat → BatchOutcome) (documents : List (Option α))
    (batch_size : Nat) (hbs : 0 < batch_size) :
    ((∀ j, j < (loadBatches documents batch_size).length → isFatal (backend j) = false) →
      bulk_insert_documents backend documents batch_size =
        some (insSum backend 0 (loadBatches documents batch_size),
              failSum backend 0 (loadBatches documents batch_size))) ∧
    ((∃ j, j < (loadBatches documents batch_size).length ∧ isFatal (backend j) = true) →
      bulk_insert_documents backend documents batch_size = none) :=
  ⟨fun h => bulk_insert_eq_of_no_fatal backend documents batch_size h,
   fun h => bulk_insert_none_of_fatal backend documents batch_size h⟩

/-- C2 witness: with a partial failure on the first of two batches the load
still returns an outcome accumulated over both batches. -/
theorem spec_C2_witness :
    bulk_insert_documents
      (fun j => if j = 0 then BatchOutcome.bulkWriteError 1 else BatchOutcome.success 2)
      [some 10, some 20, some 30, some 40] 2 = some (2, 1) := by
  have h := (spec_C2
    (fun j => if j = 0 then BatchOutcome.bulkWriteError 1 else BatchOutcome.success 2)
    [some 10, some 20, some 30, some 40] 2 (by decide)).1 (by decide)
  rw [h]
  decide

/-- C10: in a load where no batch fails fatally and every normally completed
batch reports the whole batch inserted, the returned `inserted` is the sum of
the reported counts of the non-raising batches only, the returned `failed` is
the sum of `len(batch) - nInserted` over the raising batches, and
`inserted + failed = N - (sum of nInserted over raising batches)`: the records a
`BulkWriteError` batch reports as inserted are counted in neither total. -/
theorem spec_C10 {α : Type} (backend : Nat → BatchOutcome) (documents : List (Option α))
    (batch_size : Nat) (hbs : 0 < batch_size)
    (hnf : ∀ j, j < (loadBatches documents batch_size).length → isFatal (backend j) = false)
    (hfull : ∀ j (h : j < (loadBatches documents batch_size).length),
        fullSuccess (backend j)
          ((loadBatches documents batch_size).get ⟨j, h⟩).length = true) :
    ∃ ins fail, bulk_insert_documents backend documents batch_size = some (ins, fail) ∧
      ins = insSum backend 0 (loadBatches documents batch_size) ∧
      fail = failSum backend 0 (loadBatches documents batch_size) ∧
      (ins : Int) + fail =
        ((documents.filterMap id).length : Int) -
          nInsSum backend 0 (loadBatches documents batch_size) := by
  refine ⟨_, _, bulk_insert_eq_of_no_fatal backend documents batch_size hnf, rfl, rfl, ?_⟩
  have hsum : (((loadBatches documents batch_size).map List.length).sum : Int) =
      ((documents.filterMap id).length : Int) :=
    congrArg Nat.cast (chunkList_sum_lengths batch_size hbs _)
  rw [← hsum]
  apply insSum_add_failSum_eq_sub
  · intro j h
    rw [Nat.zero_add]
    exact hfull j h
  · intro j h
    rw [Nat.zero_add]
    exact hnf j h

/-- C10 witness: first batch partially fails reporting one record inserted, the
second batch completes; the reported record is counted in neither total, so
`inserted + failed = 4 - 1`. -/
theorem spec_C10_witness :
    ∃ ins fail,
      bulk_insert_documents
        (fun j => if j = 0 then BatchOutcome.bulkWriteError 1 else BatchOutcome.success 2)
        [some 10, some 20, some 30, some 40] 2 = some (ins, fail) ∧
      ins = insSum (fun j => if j = 0 then BatchOutcome.bulkWriteError 1 else BatchOutcome.success 2)
        0 (loadBatches [some 10, some 20, some 30, some 40] 2) ∧
      fail = failSum (fun j => if j = 0 then BatchOutcome.bulkWriteError 1 else BatchOutcome.success 2)
        0 (loadBatches [some 10, some 20, some 30, some 40] 2) ∧
      (ins : Int) + fail =
        (([some 10, some 20, some 30, some 40].filterMap id).length : Int) -
          nInsSum (fun j => if j = 0 then BatchOutcome.bulkWriteError 1 else BatchOutcome.success 2)
            0 (loadBatches [some 10, some 20, some 30, some 40] 2) :=
  spec_C10 (fun j => if j = 0 then BatchOutcome.bulkWriteError 1 else BatchOutcome.success 2)
    [some 10, some 20, some 30, some 40] 2 (by decide) (by decide) (by decide)

/-- C3: `connect` attempts the connection at most 3 times; the performed
back-off sleeps are exactly `base_delay * 2 ^ attempt` seconds for the failed
non-final attempts (base delay 1, so `[2^0, ..., 2^(attempts-2)]`), which is a
non-decreasing wait sequence; the loop never falls through; and when all three
attempts fail the call re-raises the underlying exception of the final attempt
rather than a generic error. -/
theorem spec_C3 {ε : Type} (tryConn : Nat → Option ε) (o : ConnectOutcome ε)
    (sleeps : List Nat) (attempts : Nat)
    (h : connect tryConn = (o, sleeps, attempts)) :
    attempts ≤ 3 ∧
    sleeps = (List.range (attempts - 1)).map (fun t => 1 * 2 ^ t) ∧
    List.Chain' (· ≤ ·) sleeps ∧
    o ≠ ConnectOutcome.exhausted ∧
    (∀ e₂, (tryConn 0).isSome → (tryConn 1).isSome → tryConn 2 = some e₂ →
      o = ConnectOutcome.raised e₂ ∧ attempts = 3) := by
  rcases h0 : tryConn 0 with _ | e0
  · have hc : connect tryConn = (ConnectOutcome.connected, [], 1) := by
      simp [connect, connectGo, h0]
    rw [hc] at h
    obtain rfl : o = ConnectOutcome.connected := (congrArg Prod.fst h).symm
    obtain rfl : sleeps = [] := (congrArg (fun p => p.2.1) h).symm
    obtain rfl : attempts = 1 := (congrArg (fun p => p.2.2) h).symm
    refine ⟨by decide, by decide, by simp, by simp, ?_⟩
    intro e₂ hs0 _ _
    simp at hs0
  · rcases h1 : tryConn 1 with _ | e1
    · have hc : connect tryConn = (ConnectOutcome.connected, [1], 2) := by
        simp [connect, connectGo, h0, h1]
      rw [hc] at h
      obtain rfl : o = ConnectOutcome.connected := (congrArg Prod.fst h).symm
      obtain rfl : sleeps = [1] := (congrArg (fun p => p.2.1) h).symm
      obtain rfl : attempts = 2 := (congrArg (fun p => p.2.2) h).symm
      refine ⟨by decide, by decide, by simp, by simp, ?_⟩
      intro e₂ _ hs1 _
      simp at hs1
    · rcases h2 : tryConn 2 with _ | e2
      · have hc : connect tryConn = (ConnectOutcome.connected, [1, 2], 3) := by
          simp [connect, connectGo, h0, h1, h2]
        rw [hc] at h
        obtain rfl : o = ConnectOutcome.connected := (congrArg Prod.fst h).symm
        obtain rfl : sleeps = [1, 2] := (congrArg (fun p => p.2.1) h).symm
        obtain rfl : attempts = 3 := (congrArg (fun p => p.2.2) h).symm
        refine ⟨by decide, by decide, by simp [List.chain'_cons], by simp, ?_⟩
        intro e₂ _ _ hs2
        exact Option.noConfusion hs2
      · have hc : connect tryConn = (ConnectOutcome.raised e2, [1, 2], 3) := by
          simp [connect, connectGo, h0, h1, h2]
        rw [hc] at h
        obtain rfl : o = ConnectOutcome.raised e2 := (congrArg Prod.fst h).symm
        obtain rfl : sleeps = [1, 2] := (congrArg (fun p => p.2.1) h).symm
        obtain rfl : attempts = 3 := (congrArg (fun p => p.2.2) h).symm
        refine ⟨by decide, by decide, by simp [List.chain'_cons], by simp, ?_⟩
        intro e₂ _ _ hs2
        obtain rfl : e2 = e₂ := Option.some.inj hs2
        exact ⟨rfl, rfl⟩

/-- C3 witness: all three attempts fail with distinguishable exceptions 7, 8, 9;
the outcome re-raises 9, the sleeps are `[1, 2]`, and 3 attempts were made. -/
theorem spec_C3_witness :
    3 ≤ 3 ∧
    [1, 2] = (List.range (3 - 1)).map (fun t => 1 * 2 ^ t) ∧
    List.Chain' (· ≤ ·) [1, 2] ∧
    ConnectOutcome.raised 9 ≠ ConnectOutcome.exhausted ∧
    (∀ e₂ : Nat, ((fun a => some (7 + a)) 0).isSome → ((fun a => some (7 + a)) 1).isSome →
      (fun a => some (7 + a)) 2 = some e₂ →
      ConnectOutcome.raised 9 = ConnectOutcome.raised e₂ ∧ 3 = 3) :=
  spec_C3 (fun a => some (7 + a)) (ConnectOutcome.raised 9) [1, 2] 3 (by decide)

/-- C9: when the benchmarked operation raises on no iteration of the run, a run
of `k` iterations invokes the operation exactly on iterations `0 .. k-1` in
order and returns exactly the `k` timing samples in iteration order, each the
difference of the two clock readings around its iteration; for a monotone clock
every returned sample is nonnegative. -/
theorem spec_C9 {ε : Type} (clock : Nat → ℚ) (fails : Nat → Option ε) (k : Nat)
    (hok : ∀ i, i < k → fails i = none) (hmono : Monotone clock) :
    execute_query_times clock fails k =
      (List.range k,
       Except.ok ((List.range k).map (fun i => clock (2 * i + 1) - clock (2 * i)))) ∧
    ((List.range k).map (fun i => clock (2 * i + 1) - clock (2 * i))).length = k ∧
    ∀ q ∈ (List.range k).map (fun i => clock (2 * i + 1) - clock (2 * i)), 0 ≤ q := by
  have h := ewqGo_all_ok clock fails k 0 (by intro j hj; simpa using hok j hj)
  have hm1 : (List.range k).map (fun j => 0 + j) = List.range k := by
    have h2 : (List.range k).map (fun j => 0 + j) = (List.range k).map id := by
      apply List.map_congr_left
      intro a _
      simp
    rw [h2, List.map_id]
  have hm2 : (List.range k).map (fun j => clock (2 * (0 + j) + 1) - clock (2 * (0 + j))) =
      (List.range k).map (fun i => clock (2 * i + 1) - clock (2 * i)) := by
    apply List.map_congr_left
    intro a _
    simp
  refine ⟨?_, by simp, ?_⟩
  · rw [hm1, hm2] at h
    exact h
  · intro q hq
    obtain ⟨i, _, rfl⟩ := List.mem_map.mp hq
    have hstep := hmono (show 2 * i ≤ 2 * i + 1 by omega)
    linarith

/-- C9 witness: three iterations with no failure under the clock `n ↦ n`. -/
theorem spec_C9_witness :
    execute_query_times (fun n => (n : ℚ)) (fun _ => (none : Option Nat)) 3 =
      (List.range 3,
       Except.ok ((List.range 3).map
         (fun i => ((2 * i + 1 : Nat) : ℚ) - ((2 * i : Nat) : ℚ)))) ∧
    ((List.range 3).map (fun i => ((2 * i + 1 : Nat) : ℚ) - ((2 * i : Nat) : ℚ))).length = 3 ∧
    ∀ q ∈ (List.range 3).map (fun i => ((2 * i + 1 : Nat) : ℚ) - ((2 * i : Nat) : ℚ)), 0 ≤ q :=
  spec_C9 (fun n => (n : ℚ)) (fun _ => (none : Option Nat)) 3 (fun _ _ => rfl) Nat.mono_cast

/-- C8: if the operation raises on iteration `j` of a `k`-iteration run after
succeeding on every earlier iteration, the run surfaces that error: the
operation was invoked on iterations `0 .. j` only and the outcome is the
propagated exception carrying no sample list, so the samples measured on the
earlier iterations are not returned. -/
theorem spec_C8 {ε : Type} (clock : Nat → ℚ) (fails : Nat → Option ε) (k j : Nat) (e : ε)
    (hj : j < k) (hfail : fails j = some e) (hprev : ∀ t, t < j → fails t = none) :
    execute_query_times clock fails k = (List.range (j + 1), Except.error e) := by
  have h := ewqGo_first_fail clock fails j k 0 e hj (by simpa using hfail)
    (by intro t ht; simpa using hprev t ht)
  have hm1 : (List.range (j + 1)).map (fun t => 0 + t) = List.range (j + 1) := by
    have h2 : (List.range (j + 1)).map (fun t => 0 + t) = (List.range (j + 1)).map id := by
      apply List.map_congr_left
      intro a _
      simp
    rw [h2, List.map_id]
  rw [hm1] at h
  exact h

/-- C8 witness: the operation raises 42 on its second iteration (index 1) of a
three-iteration run; iterations 0 and 1 ran, the error propagates, no samples
are returned. -/
theorem spec_C8_witness :
    execute_query_times (fun n => (n : ℚ)) (fun i => if i = 1 then some 42 else none) 3 =
      (List.range 2, Except.error 42) :=
  spec_C8 (fun n => (n : ℚ)) (fun i => if i = 1 then some 42 else none) 3 1 42
    (by decide) (by decide) (by decide)

/-- C7: `summarize` fails — `statistics.mean` raises the error the spec calls
`InsufficientDataError`, modelled by `none` — exactly on the empty sample
sequence; every non-empty sequence yields a result. -/
theorem spec_C7 : ∀ l : List ℚ, summarize l = none ↔ l = [] := by
  intro l
  by_cases h : l = []
  · rw [summarize, if_pos h]
    simp [h]
  · rw [summarize, if_neg h]
    simp [h]

/-- C6: on every non-empty sample sequence `summarize` returns the reference
statistics: the arithmetic mean (characterised by `mean * n = sum`), the actual
minimum and maximum of the samples, a median between the extremes that is itself
a sample for odd counts, and the sample standard deviation — equal to `0` for a
single sample, and for larger counts equal to the nonnegative square root of
the sample variance whenever that root is rationally representable.  In
particular `summarize [5] = {mean 5, median 5, std_dev 0, min 5, max 5}` and
`summarize [1, 2, 3] = {mean 2, median 2, std_dev 1, min 1, max 3}`. -/
theorem spec_C6 (l : List ℚ) (hl : l ≠ []) :
    (∃ q, summarize l = some q ∧
      q.execution_times = l ∧
      q.mean * (l.length : ℚ) = l.sum ∧
      q.min_time ∈ l ∧ (∀ x ∈ l, q.min_time ≤ x) ∧
      q.max_time ∈ l ∧ (∀ x ∈ l, x ≤ q.max_time) ∧
      q.min_time ≤ q.median ∧ q.median ≤ q.max_time ∧
      (l.length % 2 = 1 → q.median ∈ l) ∧
      (l.length = 1 → q.std_dev = 0) ∧
      (∀ r : ℚ, 0 ≤ r → r ^ 2 = sampleVariance l → 1 < l.length → q.std_dev = r)) ∧
    summarize [5] = some ⟨[5], 5, 5, 0, 5, 5⟩ ∧
    summarize [1, 2, 3] = some ⟨[1, 2, 3], 2, 2, 1, 1, 3⟩ := by
  refine ⟨?_, ?_, ?_⟩
  · refine ⟨QueryResult.mk l (listMean l) (listMedian l) (listStdDev l) (listMin l)
        (listMax l),
      by rw [summarize, if_neg hl], rfl, ?_, listMin_mem l hl, ?_, listMax_mem l hl, ?_,
      (listMedian_bounds l hl).1, (listMedian_bounds l hl).2,
      fun hodd => listMedian_mem_of_odd l hodd, ?_, ?_⟩
    · have hn : (l.length : ℚ) ≠ 0 := by
        have hp := List.length_pos.mpr hl
        exact_mod_cast Nat.pos_iff_ne_zero.mp hp
      rw [listMean, div_mul_cancel₀ _ hn]
    · intro x hx
      exact listMin_le l x hx
    · intro x hx
      exact le_listMax l x hx
    · intro h1
      rw [listStdDev, if_neg (by omega)]
    · intro r hr hrv hlen
      rw [listStdDev, if_pos hlen, ← hrv, ratSqrt_sq r hr]
  · have hmean : listMean [5] = 5 := by norm_num [listMean]
    have hsort : sortList [5] = [5] := by norm_num [sortList, insertSorted]
    have hmed : listMedian [5] = 5 := by
      rw [listMedian, if_pos (by norm_num), hsort]
      rfl
    have hsd : listStdDev [5] = 0 := by
      rw [listStdDev, if_neg (by norm_num)]
    rw [summarize, if_neg (by simp)]
    simp only [Option.some.injEq, QueryResult.mk.injEq]
    exact ⟨trivial, hmean, hmed, hsd, rfl, rfl⟩
  · have hmean : listMean [1, 2, 3] = 2 := by norm_num [listMean]
    have hsort : sortList [1, 2, 3] = [1, 2, 3] := by norm_num [sortList, insertSorted]
    have hmed : listMedian [1, 2, 3] = 2 := by
      rw [listMedian, if_pos (by norm_num), hsort]
      rfl
    have hvar : sampleVariance [1, 2, 3] = 1 := by
      norm_num [sampleVariance, listMean]
    have hone : ratSqrt 1 = 1 := by
      have h := ratSqrt_sq 1 (by norm_num)
      simpa using h
    have hsd : listStdDev [1, 2, 3] = 1 := by
      rw [listStdDev, if_pos (by norm_num), hvar, hone]
    have hmin : listMin [1, 2, 3] = 1 := by
      show List.foldl min 1 [2, 3] = 1
      norm_num [List.foldl]
    have hmax : listMax [1, 2, 3] = 3 := by
      show List.foldl max 1 [2, 3] = 3
      norm_num [List.foldl]
    rw [summarize, if_neg (by simp)]
    simp only [Option.some.injEq, QueryResult.mk.injEq]
    exact ⟨trivial, hmean, hmed, hsd, hmin, hmax⟩

/-- C6 witness: the theorem applied to the concrete sample list `[1, 2, 3]`. -/
theorem spec_C6_witness :
    (∃ q, summarize [1, 2, 3] = some q ∧
      q.execution_times = [1, 2, 3] ∧
      q.mean * (([1, 2, 3] : List ℚ).length : ℚ) = ([1, 2, 3] : List ℚ).sum ∧
      q.min_time ∈ ([1, 2, 3] : List ℚ) ∧ (∀ x ∈ ([1, 2, 3] : List ℚ), q.min_time ≤ x) ∧
      q.max_time ∈ ([1, 2, 3] : List ℚ) ∧ (∀ x ∈ ([1, 2, 3] : List ℚ), x ≤ q.max_time) ∧
      q.min_time ≤ q.median ∧ q.median ≤ q.max_time ∧
      (([1, 2, 3] : List ℚ).length % 2 = 1 → q.median ∈ ([1, 2, 3] : List ℚ)) ∧
      (([1, 2, 3] : List ℚ).length = 1 → q.std_dev = 0) ∧
      (∀ r : ℚ, 0 ≤ r → r ^ 2 = sampleVariance [1, 2, 3] → 1 < ([1, 2, 3] : List ℚ).length →
        q.std_dev = r)) ∧
    summarize [5] = some ⟨[5], 5, 5, 0, 5, 5⟩ ∧
    summarize [1, 2, 3] = some ⟨[1, 2, 3], 2, 2, 1, 1, 3⟩ :=
  spec_C6 [1, 2, 3] (List.cons_ne_nil 1 [2, 3])

/-- C4: for a category pairing one MongoDB-named test with one PostgreSQL-named
test, `generate_findings` computes `diff_percent = (mean_A - mean_B) / mean_B *
100` and emits a finding exactly when `|diff_percent| > 10`; an emitted finding
carries the pair and the magnitude `|diff_percent|` and names MongoDB as the
faster backend exactly when `diff_percent` is negative (PostgreSQL exactly when
it is positive); at most one finding arises from one pair, and differences of at
most 10% produce none. -/
theorem spec_C4 (category mName pName : String) (A B : QueryResult)
    (hm1 : containsSub "mongo".data (lowerStr mName) = true)
    (hm2 : containsSub "postgres".data (lowerStr mName) = false)
    (hp1 : containsSub "postgres".data (lowerStr pName) = true)
    (hp2 : containsSub "mongo".data (lowerStr pName) = false)
    (hB : 0 < B.mean) :
    (generate_findings [(category, [(mName, A), (pName, B)])] ≠ [] ↔
      10 < |(A.mean - B.mean) / B.mean * 100|) ∧
    (∀ f ∈ generate_findings [(category, [(mName, A), (pName, B)])],
      f.category = category ∧ f.mongo_test = mName ∧ f.pg_test = pName ∧
      f.percent = |(A.mean - B.mean) / B.mean * 100| ∧
      (f.faster_db = "MongoDB" ↔ (A.mean - B.mean) / B.mean * 100 < 0) ∧
      (f.faster_db = "PostgreSQL" ↔ 0 < (A.mean - B.mean) / B.mean * 100)) ∧
    (generate_findings [(category, [(mName, A), (pName, B)])]).length ≤ 1 := by
  by_cases hd : 10 < |(A.mean - B.mean) / B.mean * 100|
  · have hcompute : generate_findings [(category, [(mName, A), (pName, B)])] =
        [Finding.mk category
          (if (A.mean - B.mean) / B.mean * 100 < 0 then "MongoDB" else "PostgreSQL")
          (|(A.mean - B.mean) / B.mean * 100|) mName pName] := by
      simp only [generate_findings, List.flatMap_cons, List.flatMap_nil, List.filter_cons,
        List.filter_nil, hm1, hm2, hp1, hp2, List.filterMap_cons, List.filterMap_nil,
        List.append_nil, hd, if_true, Bool.false_eq_true, if_false]
    rw [hcompute]
    have hne : (A.mean - B.mean) / B.mean * 100 ≠ 0 := by
      intro h0
      rw [h0] at hd
      norm_num at hd
    refine ⟨by simp [hd], ?_, by simp⟩
    intro f hf
    rw [List.mem_singleton] at hf
    subst hf
    refine ⟨rfl, rfl, rfl, rfl, ?_, ?_⟩
    · by_cases hneg : (A.mean - B.mean) / B.mean * 100 < 0
      · rw [if_pos hneg]
        simp [hneg]
      · rw [if_neg hneg]
        constructor
        · intro habs
          exact absurd habs (by decide : ("PostgreSQL" : String) ≠ "MongoDB")
        · intro hlt
          exact absurd hlt hneg
    · by_cases hneg : (A.mean - B.mean) / B.mean * 100 < 0
      · rw [if_pos hneg]
        constructor
        · intro habs
          exact absurd habs (by decide : ("MongoDB" : String) ≠ "PostgreSQL")
        · intro hgt
          exact absurd hgt (by linarith)
      · rw [if_neg hneg]
        constructor
        · intro _
          rcases lt_trichotomy ((A.mean - B.mean) / B.mean * 100) 0 with h | h | h
          · exact absurd h hneg
          · exact absurd h hne
          · exact h
        · intro _
          rfl
  · have hcompute : generate_findings [(category, [(mName, A), (pName, B)])] = [] := by
      simp only [generate_findings, List.flatMap_cons, List.flatMap_nil, List.filter_cons,
        List.filter_nil, hm1, hm2, hp1, hp2, List.filterMap_cons, List.filterMap_nil,
        List.append_nil, hd, if_false, if_true, Bool.false_eq_true]
    rw [hcompute]
    refine ⟨by simp [hd], ?_, by simp⟩
    intro f hf
    simp at hf

/-- C4 witness: the spec example — category simple_queries, mongodb_find with
mean 0.080 s versus postgres_select with mean 0.100 s, a 20% difference. -/
theorem spec_C4_witness :
    (generate_findings [("simple_queries",
        [("mongodb_find", QueryResult.mk [] 0.08 0 0 0 0),
         ("postgres_select", QueryResult.mk [] 0.1 0 0 0 0)])] ≠ [] ↔
      10 < |((QueryResult.mk [] 0.08 0 0 0 0).mean - (QueryResult.mk [] 0.1 0 0 0 0).mean) /
        (QueryResult.mk [] 0.1 0 0 0 0).mean * 100|) ∧
    (∀ f ∈ generate_findings [("simple_queries",
        [("mongodb_find", QueryResult.mk [] 0.08 0 0 0 0),
         ("postgres_select", QueryResult.mk [] 0.1 0 0 0 0)])],
      f.category = "simple_queries" ∧ f.mongo_test = "mongodb_find" ∧
      f.pg_test = "postgres_select" ∧
      f.percent = |((QueryResult.mk [] 0.08 0 0 0 0).mean - (QueryResult.mk [] 0.1 0 0 0 0).mean) /
        (QueryResult.mk [] 0.1 0 0 0 0).mean * 100| ∧
      (f.faster_db = "MongoDB" ↔
        ((QueryResult.mk [] 0.08 0 0 0 0).mean - (QueryResult.mk [] 0.1 0 0 0 0).mean) /
          (QueryResult.mk [] 0.1 0 0 0 0).mean * 100 < 0) ∧
      (f.faster_db = "PostgreSQL" ↔
        0 < ((QueryResult.mk [] 0.08 0 0 0 0).mean - (QueryResult.mk [] 0.1 0 0 0 0).mean) /
          (QueryResult.mk [] 0.1 0 0 0 0).mean * 100)) ∧
    (generate_findings [("simple_queries",
        [("mongodb_find", QueryResult.mk [] 0.08 0 0 0 0),
         ("postgres_select", QueryResult.mk [] 0.1 0 0 0 0)])]).length ≤ 1 :=
  spec_C4 "simple_queries" "mongodb_find" "postgres_select"
    (QueryResult.mk [] 0.08 0 0 0 0) (QueryResult.mk [] 0.1 0 0 0 0)
    (by decide) (by decide) (by decide) (by decide) (by norm_num)

